import Mathlib

/-!
Verification of the `dlog_proof` crate: a Schnorr-style non-interactive
zero-knowledge proof of knowledge of a discrete logarithm over secp256k1,
made non-interactive by the Fiat-Shamir heuristic.

Shallow embedding conventions:
* Byte strings are `List Nat` (each entry a byte value `< 256` where it matters).
* `Scalar<Secp256k1>` of the k256 crate is `ZMod secpOrder`, where `secpOrder`
  is the (concrete) order of the secp256k1 group.
* `ProjectivePoint` of the k256 crate is an external collaborator type: the
  secp256k1 group is cyclic of order `secpOrder` with the distinguished
  generator as a generator, so a point is modelled by its discrete logarithm
  (a scalar).  Point addition, scalar multiplication and the generator are
  the images of the corresponding scalar operations under this isomorphism,
  and point equality is equality of discrete logarithms.
* SHA-256 (the `sha2` crate) and the compressed SEC1 point encoding
  (`to_encoded_point(true)` / `to_bytes` of k256) are external collaborators
  with no source in this repository; the functions that use them take them
  as explicit parameters `sha : Bytes → Bytes` and `enc : Point → Bytes`.
* Fallible Rust functions returning `Result` are embedded as `Option`
  (`none` = `Err`).  Decoding paths that can also panic are embedded as
  `DecodeOutcome`, which separates a returned error from a panic.
* The one random scalar drawn by `prove` (`generate_random_number`) is an
  explicit parameter `r`.
-/

namespace DLog

/-- Byte strings: lists of byte values. -/
abbrev Bytes := List Nat

/-- Order of the secp256k1 group, i.e. the modulus of the scalar field of the
k256 crate (the constant `n` of SEC2). -/
def secpOrder : Nat :=
  115792089237316195423570985008687907852837564279074904382605163141518161494337

/-- Model of `Scalar<Secp256k1>`: integers modulo the group order. -/
abbrev Scalar := ZMod secpOrder

instance : NeZero secpOrder := ⟨by decide⟩

/-- Model of `ProjectivePoint`: the secp256k1 group is cyclic of order
`secpOrder`, so a point is determined by its discrete logarithm with respect
to the generator. -/
structure Point where
  dlog : Scalar
deriving DecidableEq

/-- Model of `ProjectivePoint::GENERATOR` (discrete logarithm 1). -/
def GENERATOR : Point := ⟨1⟩

/-- Model of point addition `P + Q`. -/
def pointAdd (P Q : Point) : Point := ⟨P.dlog + Q.dlog⟩

/-- Model of scalar multiplication `P * c` (point times scalar). -/
def pointMul (P : Point) (c : Scalar) : Point := ⟨P.dlog * c⟩

/-- Little-endian 8-byte encoding of a `u64`, as produced by `pid.to_le_bytes()`. -/
def u64le (pid : Nat) : Bytes := (List.range 8).map (fun i => pid / 256 ^ i % 256)

/-- Big-endian interpretation of a byte string as a natural number. -/
def bytesBE (l : Bytes) : Nat := l.foldl (fun acc b => acc * 256 + b) 0

/-- Big-endian encoding of a natural number on `k` bytes (the canonical
fixed-length scalar encoding `Scalar::to_bytes` uses `k = 32`). -/
def natBE : Nat → Nat → Bytes
  | 0, _ => []
  | k + 1, v => natBE k (v / 256) ++ [v % 256]

/-- Model of `Scalar::<Secp256k1>::from_repr` applied to a digest/byte string:
interpret the bytes as a big-endian integer and succeed exactly when it is a
canonical (in-range) scalar encoding, i.e. strictly below the group order. -/
def from_repr (digest : Bytes) : Option Scalar :=
  if bytesBE digest < secpOrder then some ((bytesBE digest : Nat) : Scalar) else none

/-- Model of `Scalar::to_bytes`: the 32-byte big-endian canonical encoding. -/
def scalarToBytes (s : Scalar) : Bytes := natBE 32 s.val

/-- Model of the struct `DLogProof { t: ProjectivePoint, s: Scalar<Secp256k1> }`. -/
structure DLogProof where
  t : Point
  s : Scalar
deriving DecidableEq

/-- Model of `DLogProof::hash_points` from `src/lib.rs`: starting from a
SHA-256 state fed `sid` then the little-endian bytes of `pid`, fold the
compressed encodings of the points into the state, finalize, and parse the
digest with `from_repr` (`Err` when the digest is not an in-range scalar).
The hash state is modelled as the byte string absorbed so far, `sha` maps the
absorbed bytes to the 32-byte digest. -/
def hash_points (sha : Bytes → Bytes) (enc : Point → Bytes) (sid : Bytes) (pid : Nat)
    (points : List Point) : Option Scalar :=
  from_repr (sha (points.foldl (fun h p => h ++ enc p) (sid ++ u64le pid)))

/-- Model of `DLogProof::prove` from `src/lib.rs`: with random scalar `r`,
the proof is `t = G * r`, `s = r + x * c` with
`c = hash_points sid pid [G, y, G * r]`; an error of `hash_points` is
propagated (the `?` operator). -/
def prove (sha : Bytes → Bytes) (enc : Point → Bytes) (sid : Bytes) (pid : Nat)
    (x : Scalar) (y : Point) (r : Scalar) : Option DLogProof :=
  match hash_points sha enc sid pid [GENERATOR, y, pointMul GENERATOR r] with
  | none => none
  | some c => some ⟨pointMul GENERATOR r, r + x * c⟩

/-- Model of `DLogProof::verify` from `src/lib.rs`: recompute
`c = hash_points sid pid [G, y, t]` (propagating its error) and return the
boolean `G * s == t + y * c`. -/
def verify (sha : Bytes → Bytes) (enc : Point → Bytes) (pf : DLogProof) (sid : Bytes)
    (pid : Nat) (y : Point) : Option Bool :=
  match hash_points sha enc sid pid [GENERATOR, y, pf.t] with
  | none => none
  | some c => some (decide (pointMul GENERATOR pf.s = pointAdd pf.t (pointMul y c)))

/-- Hash-to-scalar characterised the way the specification states it: SHA-256
over the concatenation of the UTF-8 bytes of `sid`, the little-endian 8-byte
encoding of `pid`, and the compressed encodings of the points in order; the
digest is read as a big-endian integer and parsed as a scalar. -/
def hashPointsSpec (sha : Bytes → Bytes) (enc : Point → Bytes) (sid : Bytes) (pid : Nat)
    (points : List Point) : Option Scalar :=
  let digest := sha (sid ++ u64le pid ++ (points.map enc).flatten)
  if bytesBE digest < secpOrder then some ((bytesBE digest : Nat) : Scalar) else none

/-- Model of `DLogProof::hash_points` from `src/main.rs` (the driver's
duplicate): a mutable hasher updated with `sid`, the little-endian bytes of
`pid`, then each point's compressed encoding in a `for` loop; the final
`from_repr(..)` is `.unwrap()`ed, so failure is a panic, modelled as `none`. -/
def hash_points_main (sha : Bytes → Bytes) (enc : Point → Bytes) (sid : Bytes) (pid : Nat)
    (points : List Point) : Option Scalar :=
  let h0 : Bytes := []
  let h1 := h0 ++ sid
  let h2 := h1 ++ u64le pid
  let h3 := points.foldl (fun h p => h ++ enc p) h2
  from_repr (sha h3)

/-- Model of `DLogProof::verify` from `src/main.rs`: same check as the
library's, on top of the driver's `hash_points` (whose failure panics). -/
def verify_main (sha : Bytes → Bytes) (enc : Point → Bytes) (pf : DLogProof) (sid : Bytes)
    (pid : Nat) (y : Point) : Option Bool :=
  match hash_points_main sha enc sid pid [GENERATOR, y, pf.t] with
  | none => none
  | some c => some (decide (pointMul GENERATOR pf.s = pointAdd pf.t (pointMul y c)))

/-- Lowercase hex digit (as an ASCII code) of a nibble, as `hex::encode`
renders it: `0`–`9` then `a`–`f`. -/
def hexDigit (k : Nat) : Nat := if k < 10 then 48 + k else 87 + k

/-- Model of `hex::encode`: each byte becomes two lowercase hex characters,
high nibble first, bytes in order. -/
def hexEncode (bs : Bytes) : Bytes :=
  bs.foldr (fun b acc => hexDigit (b / 16) :: hexDigit (b % 16) :: acc) []

/-- Value of one hex character as `hex::decode` accepts it (digits, lowercase
and uppercase letters); `none` on any other character. -/
def hexDigitVal (c : Nat) : Option Nat :=
  if 48 ≤ c ∧ c ≤ 57 then some (c - 48)
  else if 97 ≤ c ∧ c ≤ 102 then some (c - 87)
  else if 65 ≤ c ∧ c ≤ 70 then some (c - 55)
  else none

/-- Model of `hex::decode`: fails on odd length or any non-hex character,
otherwise pairs of characters become bytes. -/
def hexDecode : Bytes → Option Bytes
  | [] => some []
  | [_] => none
  | c1 :: c2 :: rest =>
    match hexDigitVal c1, hexDigitVal c2, hexDecode rest with
    | some hi, some lo, some tail => some ((hi * 16 + lo) :: tail)
    | _, _, _ => none

/-- Wire record carrying the two hex strings, with field names `t` and `s`
(the serde-derived JSON object of `src/lib.rs`, and the pair returned by
`to_dict` in `src/main.rs`). -/
structure Wire where
  t : Bytes
  s : Bytes
deriving DecidableEq

/-- Outcome of a decoding path that can return a value, return an explicit
error to the caller, or panic (`unwrap` / `clone_from_slice` on bad input). -/
inductive DecodeOutcome (α : Type) where
  | ok (a : α)
  | err
  | panicked
deriving DecidableEq

/-- Model of serializing a `DLogProof` (`serialize_projective_point` and
`serialize_scalar` of `src/lib.rs`, equally `to_dict` of `src/main.rs`):
`t` is the lowercase hex of the compressed point bytes, `s` the lowercase hex
of the 32-byte big-endian scalar bytes. -/
def to_wire (enc : Point → Bytes) (pf : DLogProof) : Wire :=
  ⟨hexEncode (enc pf.t), hexEncode (scalarToBytes pf.s)⟩

/-- Model of `deserialize_projective_point` of `src/lib.rs`; `decP` models
`ProjectivePoint::from_bytes` (`none` when the 33 bytes are not a valid
compressed point).  Malformed hex is returned as an error; a byte string of
the wrong length makes `GenericArray::clone_from_slice` panic, and invalid
point bytes hit `.unwrap()`, i.e. also a panic. -/
def deserialize_projective_point (decP : Bytes → Option Point) (tHex : Bytes) :
    DecodeOutcome Point :=
  match hexDecode tHex with
  | none => .err
  | some tBytes =>
    if tBytes.length = 33 then
      match decP tBytes with
      | some p => .ok p
      | none => .panicked
    else .panicked

/-- Model of `deserialize_scalar` of `src/lib.rs`: malformed hex is returned
as an error; a byte string of the wrong length makes
`GenericArray::clone_from_slice` panic; an out-of-range scalar is returned as
the explicit error `Invalid scalar`. -/
def deserialize_scalar (sHex : Bytes) : DecodeOutcome Scalar :=
  match hexDecode sHex with
  | none => .err
  | some sBytes =>
    if sBytes.length = 32 then
      match from_repr sBytes with
      | some s => .ok s
      | none => .err
    else .panicked

/-- Model of decoding a serialized `DLogProof` in `src/lib.rs`: the
serde-derived deserializer runs `deserialize_projective_point` on field `t`
and `deserialize_scalar` on field `s`, failing (or panicking) as soon as a
field does. -/
def from_wire (decP : Bytes → Option Point) (w : Wire) : DecodeOutcome DLogProof :=
  match deserialize_projective_point decP w.t with
  | .ok t =>
    match deserialize_scalar w.s with
    | .ok s => .ok ⟨t, s⟩
    | .err => .err
    | .panicked => .panicked
  | .err => .err
  | .panicked => .panicked

/-- Model of `DLogProof::from_dict` of `src/main.rs`: every fallible step is
`.unwrap()`ed (hex decoding of both strings, the length-33 and length-32
`clone_from_slice` copies, `from_bytes`, `from_repr`), so any malformed input
panics; only a fully valid record produces a proof. -/
def from_dict (decP : Bytes → Option Point) (w : Wire) : DecodeOutcome DLogProof :=
  match hexDecode w.t with
  | none => .panicked
  | some tBytes =>
    if tBytes.length = 33 then
      match hexDecode w.s with
      | none => .panicked
      | some sBytes =>
        match decP tBytes with
        | none => .panicked
        | some t =>
          if sBytes.length = 32 then
            match from_repr sBytes with
            | none => .panicked
            | some s => .ok ⟨t, s⟩
          else .panicked
    else .panicked

/-- Concrete stand-in for the compressed SEC1 encoding, used only to
instantiate witnesses: a 0x02 tag byte followed by the 32-byte big-endian
discrete logarithm (33 bytes, injective, all bytes below 256). -/
def encC : Point → Bytes := fun p => 2 :: natBE 32 p.dlog.val

/-- Concrete stand-in for `ProjectivePoint::from_bytes` inverting `encC`,
used only to instantiate witnesses. -/
def decC : Bytes → Option Point := fun bs =>
  match bs with
  | 2 :: rest => if bytesBE rest < secpOrder then some ⟨(bytesBE rest : Nat)⟩ else none
  | _ => none

/-- Concrete digest function whose output is the all-zero digest (a valid
scalar encoding), used only to instantiate witnesses. -/
def shaZ : Bytes → Bytes := fun _ => List.replicate 32 0

/-- Concrete digest function whose output is 32 `0xff` bytes, the largest
32-byte big-endian integer, which is not an in-range scalar encoding. -/
def shaFF : Bytes → Bytes := fun _ => List.replicate 32 255

/-- Concrete digest function whose digest is the first absorbed byte (so
transcripts beginning with different bytes get different challenges), used
only to instantiate witnesses. -/
def shaHead : Bytes → Bytes := fun l => List.replicate 31 0 ++ [l.headD 0]

/-- Lowercase-hex-character test (ASCII codes of `0`–`9` and `a`–`f`). -/
def isLowerHexChar (c : Nat) : Bool := (48 ≤ c && c ≤ 57) || (97 ≤ c && c ≤ 102)

end DLog

namespace DLog

/-! ## Helper lemmas -/

theorem bytesBE_append_single (l : Bytes) (b : Nat) :
    bytesBE (l ++ [b]) = bytesBE l * 256 + b := by
  unfold bytesBE
  rw [List.foldl_append]
  rfl

theorem bytesBE_natBE (k v : Nat) : bytesBE (natBE k v) = v % 256 ^ k := by
  induction k generalizing v with
  | zero => simp [natBE, bytesBE, Nat.mod_one]
  | succ k ih =>
    rw [natBE, bytesBE_append_single, ih, ← Nat.mod_mul_right_div_self, pow_succ']
    have h1 : v % 256 = v % (256 * 256 ^ k) % 256 :=
      (Nat.mod_mod_of_dvd v ⟨256 ^ k, rfl⟩).symm
    rw [h1]
    generalize v % (256 * 256 ^ k) = w
    omega

theorem natBE_length (k v : Nat) : (natBE k v).length = k := by
  induction k generalizing v with
  | zero => rfl
  | succ k ih => simp [natBE, ih]

theorem natBE_lt (k v : Nat) : ∀ b ∈ natBE k v, b < 256 := by
  induction k generalizing v with
  | zero => simp [natBE]
  | succ k ih =>
    intro b hb
    rw [natBE, List.mem_append] at hb
    rcases hb with hb | hb
    · exact ih _ b hb
    · simp only [List.mem_singleton] at hb
      omega

theorem from_repr_scalarToBytes (s : Scalar) : from_repr (scalarToBytes s) = some s := by
  unfold from_repr scalarToBytes
  rw [bytesBE_natBE]
  have hv : s.val < secpOrder := ZMod.val_lt s
  have hlt : secpOrder < 256 ^ 32 := by norm_num [secpOrder]
  rw [Nat.mod_eq_of_lt (lt_trans hv hlt)]
  rw [if_pos hv]
  exact congrArg some (ZMod.natCast_rightInverse s)

end DLog

namespace DLog

theorem hexEncode_cons (b : Nat) (rest : Bytes) :
    hexEncode (b :: rest) = hexDigit (b / 16) :: hexDigit (b % 16) :: hexEncode rest := rfl

theorem hexDigitVal_hexDigit (k : Nat) (hk : k < 16) : hexDigitVal (hexDigit k) = some k := by
  unfold hexDigit hexDigitVal
  split_ifs <;> simp_all <;> omega

theorem hexDecode_hexEncode (bs : Bytes) (h : ∀ b ∈ bs, b < 256) :
    hexDecode (hexEncode bs) = some bs := by
  induction bs with
  | nil => rfl
  | cons b rest ih =>
    have hb : b < 256 := h b (by simp)
    rw [hexEncode_cons]
    unfold hexDecode
    rw [hexDigitVal_hexDigit _ (by omega), hexDigitVal_hexDigit _ (by omega),
      ih (fun x hx => h x (by simp [hx]))]
    simp only [Option.some.injEq, List.cons.injEq, and_true]
    omega

theorem hexEncode_length (bs : Bytes) : (hexEncode bs).length = 2 * bs.length := by
  induction bs with
  | nil => rfl
  | cons b rest ih => rw [hexEncode_cons]; simp [ih]; omega

theorem isLowerHexChar_hexDigit (k : Nat) (hk : k < 16) : isLowerHexChar (hexDigit k) = true := by
  unfold isLowerHexChar hexDigit
  split_ifs <;> simp <;> omega

theorem hexEncode_lower (bs : Bytes) (h : ∀ b ∈ bs, b < 256) :
    ∀ c ∈ hexEncode bs, isLowerHexChar c = true := by
  induction bs with
  | nil => simp [hexEncode]
  | cons b rest ih =>
    have hb : b < 256 := h b (by simp)
    rw [hexEncode_cons]
    intro c hc
    rcases hc with _ | ⟨_, hc⟩
    · exact isLowerHexChar_hexDigit _ (by omega)
    · rcases hc with _ | ⟨_, hc⟩
      · exact isLowerHexChar_hexDigit _ (by omega)
      · exact ih (fun x hx => h x (by simp [hx])) c hc

theorem foldl_append_flatten (enc : Point → Bytes) (points : List Point) (init : Bytes) :
    points.foldl (fun h p => h ++ enc p) init = init ++ (points.map enc).flatten := by
  induction points generalizing init with
  | nil => simp
  | cons p ps ih => simp [ih, List.append_assoc]

theorem hash_points_main_eq (sha : Bytes → Bytes) (enc : Point → Bytes) (sid : Bytes)
    (pid : Nat) (points : List Point) :
    hash_points_main sha enc sid pid points = hash_points sha enc sid pid points := rfl

theorem verify_main_eq (sha : Bytes → Bytes) (enc : Point → Bytes) (pf : DLogProof)
    (sid : Bytes) (pid : Nat) (y : Point) :
    verify_main sha enc pf sid pid y = verify sha enc pf sid pid y := rfl

theorem verify_hash_some (sha : Bytes → Bytes) (enc : Point → Bytes) (pf : DLogProof)
    (sid : Bytes) (pid : Nat) (y : Point) (c : Scalar)
    (hc : hash_points sha enc sid pid [GENERATOR, y, pf.t] = some c) :
    verify sha enc pf sid pid y =
      some (decide (pointMul GENERATOR pf.s = pointAdd pf.t (pointMul y c))) := by
  unfold verify
  rw [hc]

theorem verify_hash_none (sha : Bytes → Bytes) (enc : Point → Bytes) (pf : DLogProof)
    (sid : Bytes) (pid : Nat) (y : Point)
    (hc : hash_points sha enc sid pid [GENERATOR, y, pf.t] = none) :
    verify sha enc pf sid pid y = none := by
  unfold verify
  rw [hc]

theorem prove_some_inv (sha : Bytes → Bytes) (enc : Point → Bytes) (sid : Bytes)
    (pid : Nat) (x : Scalar) (y : Point) (r : Scalar) (pf : DLogProof)
    (h : prove sha enc sid pid x y r = some pf) :
    ∃ c, hash_points sha enc sid pid [GENERATOR, y, pointMul GENERATOR r] = some c ∧
      pf = ⟨pointMul GENERATOR r, r + x * c⟩ := by
  unfold prove at h
  cases hc : hash_points sha enc sid pid [GENERATOR, y, pointMul GENERATOR r] with
  | none => rw [hc] at h; exact absurd h (by simp)
  | some c =>
    rw [hc] at h
    exact ⟨c, rfl, by injection h with h; exact h.symm⟩

end DLog

namespace DLog

/-! ## Claim theorems -/

/-- C1 — Completeness: for every secret scalar `x`, every `sid` and `pid`,
letting `y = g^x`, if `prove(sid, pid, x, y)` returns a proof then `verify`
of that proof with the same `(sid, pid, y)` returns `true` (for any digest
function, point encoding and sampled randomness `r`). -/
theorem completeness (sha : Bytes → Bytes) (enc : Point → Bytes) (sid : Bytes) (pid : Nat)
    (x r : Scalar) (pf : DLogProof)
    (h : prove sha enc sid pid x (pointMul GENERATOR x) r = some pf) :
    verify sha enc pf sid pid (pointMul GENERATOR x) = some true := by
  obtain ⟨c, hc, rfl⟩ := prove_some_inv _ _ _ _ _ _ _ _ h
  rw [verify_hash_some _ _ _ _ _ _ c hc]
  simp only [Option.some.injEq, decide_eq_true_eq]
  show pointMul GENERATOR (r + x * c) =
    pointAdd (pointMul GENERATOR r) (pointMul (pointMul GENERATOR x) c)
  simp only [pointMul, pointAdd, GENERATOR, Point.mk.injEq]
  ring

/-- C1 witness: a concrete run with `sid = []`, `pid = 0`, `x = 2`, `r = 3`
produces a proof that verifies. -/
theorem completeness_witness :
    prove shaZ encC [] 0 2 (pointMul GENERATOR 2) 3 = some ⟨pointMul GENERATOR 3, 3⟩ ∧
    verify shaZ encC ⟨pointMul GENERATOR 3, 3⟩ [] 0 (pointMul GENERATOR 2) = some true :=
  ⟨by decide, completeness shaZ encC [] 0 2 3 ⟨pointMul GENERATOR 3, 3⟩ (by decide)⟩

/-- C2 — the error branch of `hash_points` is in fact reachable: for a digest
whose big-endian value is at least the group order (here the all-`0xff`
digest), `from_repr` rejects it and `hash_points` returns an error instead of
a scalar, contradicting the required totality of hash-to-scalar. -/
theorem hash_points_digest_not_always_scalar :
    hash_points shaFF encC [] 0 [] = none ∧ from_repr (List.replicate 32 255) = none := by
  decide

/-- C3 — Verification equation: `verify` returns `some true` exactly when the
challenge recomputation succeeds with some `c` and `g^s = t + y*c` holds in
the group; `verify` is a pure function of its inputs returning a boolean. -/
theorem verify_accepts_iff (sha : Bytes → Bytes) (enc : Point → Bytes) (pf : DLogProof)
    (sid : Bytes) (pid : Nat) (y : Point) :
    verify sha enc pf sid pid y = some true ↔
      ∃ c, hash_points sha enc sid pid [GENERATOR, y, pf.t] = some c ∧
        pointMul GENERATOR pf.s = pointAdd pf.t (pointMul y c) := by
  cases hc : hash_points sha enc sid pid [GENERATOR, y, pf.t] with
  | none => rw [verify_hash_none _ _ _ _ _ _ hc]; simp
  | some c =>
    rw [verify_hash_some _ _ _ _ _ _ c hc]
    simp

/-- C4 — Prove algorithm: `prove` with sampled randomness `r` returns exactly
the proof with commitment `t = g^r` and response `s = r + c * x`, where `c`
is the transcript hash of `[g, y, t]` in that fixed order and the `t` hashed
is the `t` stored; a hash error propagates. -/
theorem prove_characterisation (sha : Bytes → Bytes) (enc : Point → Bytes) (sid : Bytes)
    (pid : Nat) (x : Scalar) (y : Point) (r : Scalar) :
    prove sha enc sid pid x y r =
      (hash_points sha enc sid pid [GENERATOR, y, pointMul GENERATOR r]).map
        (fun c => ⟨pointMul GENERATOR r, r + c * x⟩) := by
  unfold prove
  cases hc : hash_points sha enc sid pid [GENERATOR, y, pointMul GENERATOR r] with
  | none => rfl
  | some c =>
    simp only [Option.map_some', Option.some.injEq, DLogProof.mk.injEq, true_and]
    ring

/-- C5 — Transcript hash algorithm: the fold-based `hash_points` equals the
specification form: SHA-256 of `sid`, then the little-endian 8-byte `pid`,
then the compressed encodings of the points in order, the digest read as a
big-endian integer and parsed as a scalar. -/
theorem hash_points_follows_spec (sha : Bytes → Bytes) (enc : Point → Bytes) (sid : Bytes)
    (pid : Nat) (points : List Point) :
    hash_points sha enc sid pid points = hashPointsSpec sha enc sid pid points := by
  unfold hash_points hashPointsSpec from_repr
  rw [foldl_append_flatten, List.append_assoc]

/-- C10 — the library (`src/lib.rs`) and driver (`src/main.rs`) duplicates
agree: whenever the library `hash_points` succeeds the driver computes the
same challenge, and whenever the library `verify` succeeds the driver returns
the same decision. -/
theorem duplicate_impls_agree (sha : Bytes → Bytes) (enc : Point → Bytes) (sid : Bytes)
    (pid : Nat) (points : List Point) (pf : DLogProof) (y : Point) :
    (∀ c, hash_points sha enc sid pid points = some c →
        hash_points_main sha enc sid pid points = some c) ∧
    (∀ b, verify sha enc pf sid pid y = some b →
        verify_main sha enc pf sid pid y = some b) := by
  refine ⟨fun c h => ?_, fun b h => ?_⟩
  · rw [hash_points_main_eq]; exact h
  · rw [verify_main_eq]; exact h

/-- C10 witness: on a concrete transcript both implementations produce the
challenge 0. -/
theorem duplicate_impls_agree_witness :
    hash_points shaZ encC [] 0 [] = some 0 ∧ hash_points_main shaZ encC [] 0 [] = some 0 :=
  ⟨by decide, (duplicate_impls_agree shaZ encC [] 0 [] ⟨⟨0⟩, 0⟩ ⟨0⟩).1 0 (by decide)⟩

end DLog

namespace DLog

/-- C6 — Encoding round-trip: for a proof whose point the external codec
round-trips (33 bytes, byte values), decoding the wire encoding yields a
proof structurally equal to the original, both through the library
serializer (`from_wire`) and the driver pair `to_dict`/`from_dict`. -/
theorem decode_encode_roundtrip (enc : Point → Bytes) (decP : Bytes → Option Point)
    (pf : DLogProof)
    (hdec : decP (enc pf.t) = some pf.t)
    (hlen : (enc pf.t).length = 33)
    (hbytes : ∀ b ∈ enc pf.t, b < 256) :
    from_wire decP (to_wire enc pf) = .ok pf ∧ from_dict decP (to_wire enc pf) = .ok pf := by
  have hsb : ∀ b ∈ scalarToBytes pf.s, b < 256 := natBE_lt 32 pf.s.val
  have hslen : (scalarToBytes pf.s).length = 32 := natBE_length 32 pf.s.val
  have ht : hexDecode (hexEncode (enc pf.t)) = some (enc pf.t) := hexDecode_hexEncode _ hbytes
  have hs : hexDecode (hexEncode (scalarToBytes pf.s)) = some (scalarToBytes pf.s) :=
    hexDecode_hexEncode _ hsb
  have hfr : from_repr (scalarToBytes pf.s) = some pf.s := from_repr_scalarToBytes pf.s
  constructor
  · simp [from_wire, deserialize_projective_point, deserialize_scalar, to_wire,
      ht, hs, hlen, hslen, hfr, hdec]
  · simp [from_dict, to_wire, ht, hs, hlen, hslen, hfr, hdec]

/-- C6 witness: a concrete proof round-trips through the wire format. -/
theorem decode_encode_roundtrip_witness :
    decC (encC (⟨(5 : Scalar)⟩ : Point)) = some ⟨(5 : Scalar)⟩ ∧
    (encC (⟨(5 : Scalar)⟩ : Point)).length = 33 ∧
    from_wire decC (to_wire encC ⟨⟨(5 : Scalar)⟩, (7 : Scalar)⟩) =
      DecodeOutcome.ok ⟨⟨(5 : Scalar)⟩, (7 : Scalar)⟩ :=
  ⟨by decide, by decide,
    (decode_encode_roundtrip encC decC ⟨⟨5⟩, 7⟩ (by decide) (by decide) (by decide)).1⟩

/-- C8 counterexample — the claim fails as stated: with secret `x = 0`
(so `y = g^0`), a proof produced under `sid1 = [0]` verifies under the
different context `sid2 = [1]`, returning `true` where the claim demands
`false`. -/
theorem context_binding_counterexample :
    (([0] : Bytes) ≠ [1]) ∧
    prove shaZ encC [0] 0 0 (pointMul GENERATOR 0) 1 = some ⟨pointMul GENERATOR 1, 1⟩ ∧
    verify shaZ encC ⟨pointMul GENERATOR 1, 1⟩ [1] 0 (pointMul GENERATOR 0) = some true := by
  decide

/-- C8 (amended) — Context binding: a proof produced under `(sid1, pid1)`
with an invertible secret `x` fails verification under `(sid2, pid2)`
whenever the challenge recomputed under the second context differs from the
challenge of the first context. -/
theorem context_binding (sha : Bytes → Bytes) (enc : Point → Bytes)
    (sid1 sid2 : Bytes) (pid1 pid2 : Nat) (x r c1 c2 : Scalar) (pf : DLogProof)
    (hx : IsUnit x)
    (hp : prove sha enc sid1 pid1 x (pointMul GENERATOR x) r = some pf)
    (h2 : hash_points sha enc sid2 pid2 [GENERATOR, pointMul GENERATOR x, pf.t] = some c2)
    (h1 : hash_points sha enc sid1 pid1 [GENERATOR, pointMul GENERATOR x, pf.t] = some c1)
    (hne : c1 ≠ c2) :
    verify sha enc pf sid2 pid2 (pointMul GENERATOR x) = some false := by
  obtain ⟨c, hc, rfl⟩ := prove_some_inv _ _ _ _ _ _ _ _ hp
  rw [hc] at h1
  injection h1 with h1
  subst h1
  rw [verify_hash_some _ _ _ _ _ _ c2 h2]
  simp only [Option.some.injEq]
  rw [decide_eq_false_iff_not]
  intro heq
  apply hne
  simp only [pointMul, pointAdd, GENERATOR, Point.mk.injEq, one_mul] at heq
  exact hx.mul_left_cancel (add_left_cancel heq)

/-- C8 witness: with a digest function that echoes the first transcript byte,
a proof made under `sid1 = [1]` with `x = 1` is rejected under `sid2 = [2]`. -/
theorem context_binding_witness :
    IsUnit (1 : Scalar) ∧
    prove shaHead encC [1] 0 1 (pointMul GENERATOR 1) 0 = some ⟨pointMul GENERATOR 0, 1⟩ ∧
    hash_points shaHead encC [2] 0 [GENERATOR, pointMul GENERATOR 1, pointMul GENERATOR 0] =
      some 2 ∧
    hash_points shaHead encC [1] 0 [GENERATOR, pointMul GENERATOR 1, pointMul GENERATOR 0] =
      some 1 ∧
    ((1 : Scalar) ≠ 2) ∧
    verify shaHead encC ⟨pointMul GENERATOR 0, 1⟩ [2] 0 (pointMul GENERATOR 1) = some false :=
  ⟨isUnit_one, by decide, by decide, by decide, by decide,
    context_binding shaHead encC [1] [2] 0 0 1 0 1 2 ⟨pointMul GENERATOR 0, 1⟩ isUnit_one
      (by decide) (by decide) (by decide) (by decide)⟩

/-- C9 — Wire format shape: the encoded record has the string fields `t` and
`s`, `t` the lowercase hex of the 33-byte compressed point encoding
(66 characters) and `s` the lowercase hex of the 32-byte big-endian scalar
encoding (64 characters); every character is a lowercase hex digit. -/
theorem wire_format_shape (enc : Point → Bytes) (pf : DLogProof)
    (hlen : (enc pf.t).length = 33) (hbytes : ∀ b ∈ enc pf.t, b < 256) :
    (to_wire enc pf).t = hexEncode (enc pf.t) ∧
    (to_wire enc pf).s = hexEncode (scalarToBytes pf.s) ∧
    (to_wire enc pf).t.length = 66 ∧
    (to_wire enc pf).s.length = 64 ∧
    (∀ ch ∈ (to_wire enc pf).t, isLowerHexChar ch = true) ∧
    (∀ ch ∈ (to_wire enc pf).s, isLowerHexChar ch = true) := by
  have h1 : (to_wire enc pf).t = hexEncode (enc pf.t) := rfl
  have h2 : (to_wire enc pf).s = hexEncode (scalarToBytes pf.s) := by simp only [to_wire]
  have h3 : (scalarToBytes pf.s).length = 32 := natBE_length 32 pf.s.val
  have hsb : ∀ b ∈ scalarToBytes pf.s, b < 256 := natBE_lt 32 pf.s.val
  refine ⟨h1, h2, ?_, ?_, ?_, ?_⟩
  · rw [h1, hexEncode_length, hlen]
  · rw [h2, hexEncode_length, h3]
  · rw [h1]; exact hexEncode_lower _ hbytes
  · rw [h2]; exact hexEncode_lower _ hsb

/-- C9 witness: the shape facts on a concrete proof and the concrete codec. -/
theorem wire_format_shape_witness :
    (encC (⟨(5 : Scalar)⟩ : Point)).length = 33 ∧
    (∀ b ∈ encC (⟨(5 : Scalar)⟩ : Point), b < 256) ∧
    (to_wire encC ⟨⟨(5 : Scalar)⟩, (7 : Scalar)⟩).t.length = 66 ∧
    (to_wire encC ⟨⟨(5 : Scalar)⟩, (7 : Scalar)⟩).s.length = 64 :=
  ⟨by decide, by decide,
    (wire_format_shape encC ⟨⟨5⟩, 7⟩ (by decide) (by decide)).2.2.1,
    (wire_format_shape encC ⟨⟨5⟩, 7⟩ (by decide) (by decide)).2.2.2.1⟩

end DLog

namespace DLog

/-- C7 counterexample — the claim fails as stated: a wire record whose `t`
field is the valid hex string of the wrong length (`"00"`, one byte instead
of 33) makes decoding panic (`GenericArray::clone_from_slice`) rather than
return an explicit decoding-error value. -/
theorem decode_wrong_length_panics :
    from_wire decC ⟨[48, 48], hexEncode (natBE 32 0)⟩ = DecodeOutcome.panicked := by
  decide

/-- C7 (amended) — decoding error handling as implemented: malformed hex in
`t` or `s` and an out-of-range `s` scalar are returned as explicit error
values, and a success never yields a partially constructed proof; but a
decoded byte string of the wrong length, or `t` bytes that are not a valid
point, cause a panic instead of an error. -/
theorem decode_failure_modes (decP : Bytes → Option Point) (w : Wire) :
    (deserialize_projective_point decP w.t = DecodeOutcome.err ↔ hexDecode w.t = none) ∧
    (deserialize_projective_point decP w.t = DecodeOutcome.panicked ↔
      ∃ tb, hexDecode w.t = some tb ∧ (tb.length ≠ 33 ∨ decP tb = none)) ∧
    (deserialize_scalar w.s = DecodeOutcome.err ↔
      (hexDecode w.s = none ∨
       ∃ sb, hexDecode w.s = some sb ∧ sb.length = 32 ∧ from_repr sb = none)) ∧
    (deserialize_scalar w.s = DecodeOutcome.panicked ↔
      ∃ sb, hexDecode w.s = some sb ∧ sb.length ≠ 32) ∧
    (from_wire decP w = DecodeOutcome.err ↔
      (deserialize_projective_point decP w.t = DecodeOutcome.err ∨
       ∃ t, deserialize_projective_point decP w.t = DecodeOutcome.ok t ∧
         deserialize_scalar w.s = DecodeOutcome.err)) ∧
    (from_wire decP w = DecodeOutcome.panicked ↔
      (deserialize_projective_point decP w.t = DecodeOutcome.panicked ∨
       ∃ t, deserialize_projective_point decP w.t = DecodeOutcome.ok t ∧
         deserialize_scalar w.s = DecodeOutcome.panicked)) := by
  refine ⟨?_, ?_, ?_, ?_, ?_, ?_⟩
  · unfold deserialize_projective_point
    cases ht : hexDecode w.t with
    | none => simp
    | some tb =>
      by_cases h33 : tb.length = 33
      · cases hdp : decP tb <;> simp [h33, hdp]
      · simp [h33]
  · unfold deserialize_projective_point
    cases ht : hexDecode w.t with
    | none => simp
    | some tb =>
      by_cases h33 : tb.length = 33
      · cases hdp : decP tb <;> simp [h33, hdp]
      · simp [h33]
  · unfold deserialize_scalar
    cases hs : hexDecode w.s with
    | none => simp
    | some sb =>
      by_cases h32 : sb.length = 32
      · cases hfr : from_repr sb <;> simp [h32, hfr]
      · simp [h32]
  · unfold deserialize_scalar
    cases hs : hexDecode w.s with
    | none => simp
    | some sb =>
      by_cases h32 : sb.length = 32
      · cases hfr : from_repr sb <;> simp [h32, hfr]
      · simp [h32]
  · unfold from_wire
    cases hT : deserialize_projective_point decP w.t with
    | ok t => cases hS : deserialize_scalar w.s <;> simp
    | err => simp
    | panicked => simp
  · unfold from_wire
    cases hT : deserialize_projective_point decP w.t with
    | ok t => cases hS : deserialize_scalar w.s <;> simp
    | err => simp
    | panicked => simp

end DLog
